import Mathlib

/-!
Shallow embedding of the RCString copy-on-write engine
(`src/RCString/src/rc_string.cpp` and
`src/RCString/src/thread_safe_rc_string.cpp`) and of the `BlockingQueue`
utility, together with proofs about the embedded operations.

Modelling conventions:
* `size_t` arithmetic is `Nat` arithmetic reduced modulo `2 ^ 64` wherever the
  C++ computation can wrap (`num - 1` in `RoundToMultiple`, `capacity_ * 3`,
  `size() + length`); `unsigned int` (the reference counter) is reduced modulo
  `2 ^ 32`.
* A `Buffer` (`std::unique_ptr<char[]>`) is a `List Nat` of byte values whose
  length is the allocated capacity; freshly allocated (indeterminate) bytes are
  modelled as 0, which is sound for every property below because no property
  reads a byte beyond the logical size except to state that it is unchanged.
* In `StringData::StringData(size_t capacity)` the member `capacity_` is not
  in the mem-initializer list, so the `Reserve(capacity)` call in the body
  reads an indeterminate `capacity_`.  We model the indeterminate initial
  value as 0, the benign value under which `Reserve` establishes exactly the
  documented capacity; the same holds for `ThreadSafeStringData`.
* Heap-allocated `StringData` blocks live in a `Heap`, a list of blocks
  indexed by allocation order; an `RCString` handle stores the index of its
  block.  Two `data()` pointers are equal exactly when the two handles refer
  to the same live block (distinct live blocks own distinct allocations), so
  pointer equality of `data()` is modelled as equality of block indices.
* `ThreadSafeStringData` is modelled by its sequential (single-thread)
  semantics: each member function is one atomic step.  In particular
  `ref_count_.fetch_sub(1)` returns the value held *before* the decrement,
  exactly as `std::atomic::fetch_sub` does.
-/

def size_t_mod : Nat := 2 ^ 64

def uint_mod : Nat := 2 ^ 32

/-- `kBaseSize` from both source files: the growth granularity. -/
def kBaseSize : Nat := 4

/-- `kUnsharedRefMark = static_cast<unsigned int>(-1)`: the sentinel counter
value marking a permanently exclusive (unsharedable) block. -/
def kUnsharedRefMark : Nat := 2 ^ 32 - 1

/-- `RoundToMultiple(num, factor)` from both source files:
`factor == 0 ? 0 : (num - 1 - (num - 1) % factor + factor)`, computed in
`size_t`, so `num - 1` wraps when `num = 0` and the final sum is reduced
modulo `2 ^ 64`. -/
def RoundToMultiple (num factor : Nat) : Nat :=
  if factor = 0 then 0
  else
    let m := (num + (size_t_mod - 1)) % size_t_mod
    (m - m % factor + factor) % size_t_mod

/-- The shared data block of `rc_string.cpp`: owns the buffer, tracks
`capacity_`, `size_` and the plain (non-atomic) `ref_count_`. -/
structure StringData where
  buffer : List Nat
  capacity : Nat
  size : Nat
  ref_count : Nat
deriving Repr, DecidableEq

instance : Inhabited StringData := ⟨⟨[], 0, 0, 0⟩⟩

/-- `StringData::Unique`: `ref_count_ == 1 || ref_count_ == kUnsharedRefMark`. -/
def StringData.Unique (d : StringData) : Bool :=
  d.ref_count == 1 || d.ref_count == kUnsharedRefMark

/-- `StringData::Unsharedable`: `ref_count_ == kUnsharedRefMark`. -/
def StringData.Unsharedable (d : StringData) : Bool :=
  d.ref_count == kUnsharedRefMark

/-- `StringData::MakeUnsharedable`: sets `ref_count_ = kUnsharedRefMark`
(asserts `Unique()`). -/
def StringData.MakeUnsharedable (d : StringData) : StringData :=
  { d with ref_count := kUnsharedRefMark }

/-- `StringData::ResetSharedable`: sets `ref_count_ = 1` (asserts `Unique()`). -/
def StringData.ResetSharedable (d : StringData) : StringData :=
  { d with ref_count := 1 }

/-- `StringData::AddRef`: `++ref_count_` on an `unsigned int`. -/
def StringData.AddRef (d : StringData) : StringData :=
  { d with ref_count := (d.ref_count + 1) % uint_mod }

/-- `StringData::Release`:
`if (Unsharedable() || --ref_count_ == 0) return true; return false;` —
short-circuit: an unsharedable block is not decremented; otherwise the
pre-decrement (`unsigned`) is compared with 0 after decrementing.
Returns the flag together with the updated block. -/
def StringData.Release (d : StringData) : Bool × StringData :=
  if d.Unsharedable then (true, d)
  else
    let r := (d.ref_count + (uint_mod - 1)) % uint_mod
    (r == 0, { d with ref_count := r })

/-- `StringData::Reserve(required_capacity)`: no-op when the requirement is
already satisfied, otherwise grows to
`RoundToMultiple(max(capacity_ * 3 / 2, required_capacity), kBaseSize)`,
allocating a fresh buffer and copying the first `size_` bytes
(`memcpy_s(new_buf, new_capacity, buffer_.get(), size_)`). -/
def StringData.Reserve (d : StringData) (required_capacity : Nat) : StringData :=
  if required_capacity ≤ d.capacity then d
  else
    let new_base := max ((d.capacity * 3) % size_t_mod / 2) required_capacity
    let new_capacity := RoundToMultiple new_base kBaseSize
    { d with
      buffer := d.buffer.take d.size ++ List.replicate (new_capacity - d.size) 0
      capacity := new_capacity }

/-- `StringData::CopyData(str, length, pos)`: writes `length` bytes of `str`
at offset `pos` and sets `size_ = max(pos + length, size_)` (asserts
`Unique()`, `pos <= size_`, `pos + length <= capacity_`). -/
def StringData.CopyData (d : StringData) (str : List Nat) (length pos : Nat) :
    StringData :=
  { d with
    buffer := d.buffer.take pos ++ str.take length ++ d.buffer.drop (pos + length)
    size := max (pos + length) d.size }

/-- `StringData::StringData(size_t capacity)`: `size_ = 0`, `ref_count_ = 1`,
then `Reserve(capacity)`; the indeterminate initial `capacity_` is modelled
as 0 and the null `buffer_` as `[]` (see the module docstring). -/
def mkStringData (capacity : Nat) : StringData :=
  StringData.Reserve { buffer := [], capacity := 0, size := 0, ref_count := 1 } capacity

/-- `StringData::Clone(new_capacity)`: fresh block of capacity
`max(new_capacity, capacity_)` holding a copy of the first `size_` bytes. -/
def StringData.Clone (d : StringData) (new_capacity : Nat) : StringData :=
  (mkStringData (max new_capacity d.capacity)).CopyData d.buffer d.size 0

/-! ### The synchronized policy (`thread_safe_rc_string.cpp`)

`ThreadSafeStringData` has the same fields with `ref_count_` an
`std::atomic<unsigned int>`; we model each member function as one atomic
sequential step. -/

structure ThreadSafeStringData where
  buffer : List Nat
  capacity : Nat
  size : Nat
  ref_count : Nat
deriving Repr, DecidableEq

instance : Inhabited ThreadSafeStringData := ⟨⟨[], 0, 0, 0⟩⟩

/-- `ThreadSafeStringData::Unique`. -/
def ThreadSafeStringData.Unique (d : ThreadSafeStringData) : Bool :=
  d.ref_count == 1 || d.ref_count == kUnsharedRefMark

/-- `ThreadSafeStringData::Unsharedable`. -/
def ThreadSafeStringData.Unsharedable (d : ThreadSafeStringData) : Bool :=
  d.ref_count == kUnsharedRefMark

/-- `ThreadSafeStringData::AddRef`: `ref_count_.fetch_add(1)`. -/
def ThreadSafeStringData.AddRef (d : ThreadSafeStringData) : ThreadSafeStringData :=
  { d with ref_count := (d.ref_count + 1) % uint_mod }

/-- `ThreadSafeStringData::Release`:
`if (Unsharedable() || ref_count_.fetch_sub(1) == 0) return true; return false;`
— `fetch_sub(1)` decrements and returns the value held *before* the
decrement, and that old value is what is compared with 0. -/
def ThreadSafeStringData.Release (d : ThreadSafeStringData) :
    Bool × ThreadSafeStringData :=
  if d.Unsharedable then (true, d)
  else
    (d.ref_count == 0,
     { d with ref_count := (d.ref_count + (uint_mod - 1)) % uint_mod })

/-- `ThreadSafeStringData::Reserve`: same body as `StringData::Reserve`. -/
def ThreadSafeStringData.Reserve (d : ThreadSafeStringData)
    (required_capacity : Nat) : ThreadSafeStringData :=
  if required_capacity ≤ d.capacity then d
  else
    let new_base := max ((d.capacity * 3) % size_t_mod / 2) required_capacity
    let new_capacity := RoundToMultiple new_base kBaseSize
    { d with
      buffer := d.buffer.take d.size ++ List.replicate (new_capacity - d.size) 0
      capacity := new_capacity }

/-- `ThreadSafeStringData::CopyData`: same body as `StringData::CopyData`. -/
def ThreadSafeStringData.CopyData (d : ThreadSafeStringData) (str : List Nat)
    (length pos : Nat) : ThreadSafeStringData :=
  { d with
    buffer := d.buffer.take pos ++ str.take length ++ d.buffer.drop (pos + length)
    size := max (pos + length) d.size }

/-! ### The handle (`RCString`) over a heap of blocks -/

/-- The heap of live `StringData` blocks, indexed by allocation order. -/
structure Heap where
  blocks : List StringData
deriving Repr, DecidableEq

/-- Read block `i` (meaningful when `i < H.blocks.length`). -/
def Heap.get (H : Heap) (i : Nat) : StringData := H.blocks.getD i default

/-- Overwrite block `i` in place. -/
def Heap.set (H : Heap) (i : Nat) (d : StringData) : Heap := ⟨H.blocks.set i d⟩

/-- Allocate a fresh block (`new StringData`), returning its index. -/
def Heap.alloc (H : Heap) (d : StringData) : Heap × Nat :=
  (⟨H.blocks ++ [d]⟩, H.blocks.length)

/-- `RCString`: the handle holds `data_`, a reference to exactly one block;
here the block's heap index. -/
structure RCString where
  data_ : Nat
deriving Repr, DecidableEq

/-- `RCString::RCString()`: `data_(new StringData(kBaseSize))`. -/
def mkRCString (H : Heap) : Heap × RCString :=
  let p := H.alloc (mkStringData kBaseSize)
  (p.1, ⟨p.2⟩)

/-- `RCString::RCString(const char* str, size_t length)`:
`data_(new StringData(length))` then `data_->CopyData(str, length, 0)`. -/
def mkRCStringOfBytes (H : Heap) (str : List Nat) (length : Nat) :
    Heap × RCString :=
  let p := H.alloc ((mkStringData length).CopyData str length 0)
  (p.1, ⟨p.2⟩)

/-- `RCString::RCString(const RCString& other)`: share (`AddRef`) unless the
source block is unsharedable, in which case clone at `other.size()`. -/
def copyRCString (H : Heap) (other : RCString) : Heap × RCString :=
  let d := H.get other.data_
  if !d.Unsharedable then
    (H.set other.data_ d.AddRef, ⟨other.data_⟩)
  else
    let p := H.alloc (d.Clone d.size)
    (p.1, ⟨p.2⟩)

/-- `RCString::PrepareToModify(required_capacity, make_unsharedable)`:
detach (clone, release the old reference discarding the result, adopt the
clone) when the block is not unique, otherwise reserve in place; finally
either `MakeUnsharedable()` or `ResetSharedable()` on the adopted block. -/
def RCString.PrepareToModify (H : Heap) (h : RCString)
    (required_capacity : Nat) (make_unsharedable : Bool) : Heap × RCString :=
  let d := H.get h.data_
  let p : Heap × RCString :=
    if !d.Unique then
      let new_data := d.Clone required_capacity
      let q := (Heap.set H h.data_ (d.Release).2).alloc new_data
      (q.1, ⟨q.2⟩)
    else
      (H.set h.data_ (d.Reserve required_capacity), h)
  let d1 := p.1.get p.2.data_
  if make_unsharedable then (p.1.set p.2.data_ d1.MakeUnsharedable, p.2)
  else (p.1.set p.2.data_ d1.ResetSharedable, p.2)

/-- `RCString::Append(const char* str, size_t length)`:
`new_size = data_->size() + length` (a `size_t` sum), `PrepareToModify(new_size,
false)`, then `data_->CopyData(str, length, data_->size())`. -/
def RCString.Append (H : Heap) (h : RCString) (str : List Nat)
    (length : Nat) : Heap × RCString :=
  let new_size := ((H.get h.data_).size + length) % size_t_mod
  let p := RCString.PrepareToModify H h new_size false
  let d1 := p.1.get p.2.data_
  (p.1.set p.2.data_ (d1.CopyData str length d1.size), p.2)

/-- `char& RCString::operator[](size_t pos)` (non-const):
`PrepareToModify(size(), true)` and hand out a live reference
`*(data_->data() + pos)`; only the state effect is modelled (the returned
reference aliases the adopted block's buffer at offset `pos`). -/
def RCString.opIndexMut (H : Heap) (h : RCString) (pos : Nat) :
    Heap × RCString :=
  RCString.PrepareToModify H h (H.get h.data_).size true

/-! ### The blocking queue (`blocking_queue.h`) -/

/-- `BlockingQueue<T>`: a mutex-protected `std::queue<T>`; sequentially its
state is the list of queued items, oldest first. -/
structure BlockingQueue (T : Type) where
  buffer : List T
deriving Repr, DecidableEq

/-- `BlockingQueue::Enqueue(ele)`: `buffer_.push(ele)` appends at the back. -/
def BlockingQueue.Enqueue {T : Type} (q : BlockingQueue T) (ele : T) :
    BlockingQueue T :=
  ⟨q.buffer ++ [ele]⟩

/-- `BlockingQueue::Dequeue()`: waits until non-empty, then takes
`buffer_.front()` and pops it.  Sequentially, on an empty queue the call
blocks forever, modelled as `none`. -/
def BlockingQueue.Dequeue {T : Type} (q : BlockingQueue T) :
    Option (T × BlockingQueue T) :=
  match q.buffer with
  | [] => none
  | x :: xs => some (x, ⟨xs⟩)

/-- `BlockingQueue::size()`. -/
def BlockingQueue.size {T : Type} (q : BlockingQueue T) : Nat :=
  q.buffer.length

/-! ### Heap access lemmas -/

theorem Heap.length_set (H : Heap) (i : Nat) (d : StringData) :
    (H.set i d).blocks.length = H.blocks.length := by
  simp [Heap.set]

theorem Heap.get_set_self (H : Heap) (i : Nat) (d : StringData)
    (hi : i < H.blocks.length) : (H.set i d).get i = d := by
  simp [Heap.set, Heap.get, List.getD, List.getElem?_set_self, hi]

theorem Heap.get_set_ne (H : Heap) (i j : Nat) (d : StringData)
    (hij : i ≠ j) : (H.set i d).get j = H.get j := by
  simp [Heap.set, Heap.get, List.getD, List.getElem?_set_ne, hij]

theorem Heap.get_alloc_old (H : Heap) (d : StringData) (j : Nat)
    (hj : j < H.blocks.length) : (H.alloc d).1.get j = H.get j := by
  simp [Heap.alloc, Heap.get, List.getD, List.getElem?_append, hj]

theorem Heap.get_alloc_new (H : Heap) (d : StringData) :
    (H.alloc d).1.get H.blocks.length = d := by
  simp [Heap.alloc, Heap.get, List.getD]

theorem Heap.set_set (H : Heap) (i : Nat) (a b : StringData) :
    (H.set i a).set i b = H.set i b := by
  simp [Heap.set, List.set_set]

/-! ### Branch lemmas for `PrepareToModify` -/

/-- When the held block is unique, `PrepareToModify` reserves in place and
applies the requested sharedability transition; the handle keeps its block. -/
theorem PrepareToModify_unique (H : Heap) (h : RCString) (req : Nat)
    (mk_ex : Bool) (hv : h.data_ < H.blocks.length)
    (hu : (H.get h.data_).Unique = true) :
    RCString.PrepareToModify H h req mk_ex =
      (H.set h.data_
        (if mk_ex then ((H.get h.data_).Reserve req).MakeUnsharedable
         else ((H.get h.data_).Reserve req).ResetSharedable), h) := by
  unfold RCString.PrepareToModify
  simp only [hu, Bool.not_true, Bool.false_eq_true, if_false]
  rw [Heap.get_set_self _ _ _ hv]
  cases mk_ex <;> simp [Heap.set_set]

/-- When the held block is shared (not unique), `PrepareToModify` clones,
releases the old reference (discarding the flag), adopts the fresh block and
applies the requested sharedability transition to it. -/
theorem PrepareToModify_not_unique (H : Heap) (h : RCString) (req : Nat)
    (mk_ex : Bool) (hv : h.data_ < H.blocks.length)
    (hu : (H.get h.data_).Unique = false) :
    RCString.PrepareToModify H h req mk_ex =
      (((H.set h.data_ ((H.get h.data_).Release).2).alloc
          ((H.get h.data_).Clone req)).1.set H.blocks.length
        (if mk_ex then ((H.get h.data_).Clone req).MakeUnsharedable
         else ((H.get h.data_).Clone req).ResetSharedable),
       ⟨H.blocks.length⟩) := by
  unfold RCString.PrepareToModify
  simp only [hu, Bool.not_false, if_true]
  have hlen : (H.set h.data_ ((H.get h.data_).Release).2).blocks.length
      = H.blocks.length := Heap.length_set ..
  simp only [Heap.alloc, hlen]
  have : (⟨(H.set h.data_ ((H.get h.data_).Release).2).blocks
      ++ [(H.get h.data_).Clone req]⟩ : Heap).get H.blocks.length
      = (H.get h.data_).Clone req := by
    rw [← hlen]
    exact Heap.get_alloc_new _ _
  rw [this]
  cases mk_ex <;> simp

/-! ### Claim theorems -/

/-- C9: used sequentially, the blocking queue is FIFO: after `Enqueue(1)`,
`Enqueue(2)`, `Enqueue(3)`, three successive `Dequeue()` calls return 1, 2 and
3 in that order, each removing the oldest remaining item. -/
theorem C9_queue_fifo :
    (((BlockingQueue.Enqueue ⟨[]⟩ 1).Enqueue 2).Enqueue 3 :
        BlockingQueue Nat).Dequeue = some (1, ⟨[2, 3]⟩) ∧
    (⟨[2, 3]⟩ : BlockingQueue Nat).Dequeue = some (2, ⟨[3]⟩) ∧
    (⟨[3]⟩ : BlockingQueue Nat).Dequeue = some (3, ⟨[]⟩) := by
  decide

/-- C1 (code bug): on the last shared owner (`ref_count_ == 1`) the
non-synchronized `StringData::Release` decrements to 0 and returns true, but
the synchronized `ThreadSafeStringData::Release` compares the *pre*-decrement
value returned by `fetch_sub(1)` with 0 and therefore returns false even
though its decrement also reaches 0 — contradicting its own comment that the
last owner sees true (the block is leaked).  On an exclusive block both
policies return true without decrementing. -/
theorem C1_synchronized_release_loses_last_owner :
    (StringData.Release ⟨[], 4, 0, 1⟩ = (true, ⟨[], 4, 0, 0⟩)) ∧
    (ThreadSafeStringData.Release ⟨[], 4, 0, 1⟩ = (false, ⟨[], 4, 0, 0⟩)) ∧
    (StringData.Release ⟨[], 4, 0, kUnsharedRefMark⟩
      = (true, ⟨[], 4, 0, kUnsharedRefMark⟩)) ∧
    (ThreadSafeStringData.Release ⟨[], 4, 0, kUnsharedRefMark⟩
      = (true, ⟨[], 4, 0, kUnsharedRefMark⟩)) := by
  decide

/-- C10: in the detach branch of `PrepareToModify` (block not unique, count at
least 2, not exclusive) the discarded `Release()` result is always false under
the non-synchronized policy, and the old block survives with its count
decremented by one — still at least 1 — for its remaining sharers, so no
deallocation is skipped and none is duplicated on this path. -/
theorem C10_detach_release_false (H : Heap) (h : RCString) (req : Nat)
    (mk_ex : Bool) (hv : h.data_ < H.blocks.length)
    (hu : (H.get h.data_).Unique = false)
    (h2 : 2 ≤ (H.get h.data_).ref_count)
    (hlt : (H.get h.data_).ref_count < uint_mod) :
    ((H.get h.data_).Release).1 = false ∧
    ((RCString.PrepareToModify H h req mk_ex).1.get h.data_).ref_count
      = (H.get h.data_).ref_count - 1 ∧
    1 ≤ ((RCString.PrepareToModify H h req mk_ex).1.get h.data_).ref_count := by
  have hnu : (H.get h.data_).Unsharedable = false := by
    simp only [StringData.Unique, Bool.or_eq_false_iff] at hu
    simp [StringData.Unsharedable, hu.2]
  have hrel : ((H.get h.data_).Release).2.ref_count
      = (H.get h.data_).ref_count - 1 ∧ ((H.get h.data_).Release).1 = false := by
    simp only [StringData.Release, hnu, Bool.false_eq_true, if_false]
    constructor
    · show ((H.get h.data_).ref_count + (uint_mod - 1)) % uint_mod = _
      simp only [uint_mod] at *
      omega
    · simp only [beq_eq_false_iff_ne, ne_eq]
      show ¬((H.get h.data_).ref_count + (uint_mod - 1)) % uint_mod = 0
      simp only [uint_mod] at *
      omega
  refine ⟨hrel.2, ?_, ?_⟩ <;>
    rw [PrepareToModify_not_unique H h req mk_ex hv hu] <;>
    rw [Heap.get_set_ne _ _ _ _ (by omega), Heap.get_alloc_old _ _ _
      (by rw [Heap.length_set]; exact hv), Heap.get_set_self _ _ _ hv] <;>
    omega

/-- Witness for C10 at a concrete two-sharer block. -/
theorem C10_detach_release_false_witness :
    ((Heap.get ⟨[⟨[], 0, 0, 2⟩]⟩ 0).Release).1 = false ∧
    ((RCString.PrepareToModify ⟨[⟨[], 0, 0, 2⟩]⟩ ⟨0⟩ 4 false).1.get 0).ref_count
      = (Heap.get ⟨[⟨[], 0, 0, 2⟩]⟩ 0).ref_count - 1 ∧
    1 ≤ ((RCString.PrepareToModify ⟨[⟨[], 0, 0, 2⟩]⟩ ⟨0⟩ 4 false).1.get 0).ref_count :=
  C10_detach_release_false ⟨[⟨[], 0, 0, 2⟩]⟩ ⟨0⟩ 4 false (by decide) (by decide)
    (by decide) (by decide)

/-! ### Helper lemmas on `Reserve` and `CopyData` -/

theorem StringData.size_Reserve (d : StringData) (c : Nat) :
    (d.Reserve c).size = d.size := by
  unfold StringData.Reserve; split <;> rfl

theorem StringData.ref_count_Reserve (d : StringData) (c : Nat) :
    (d.Reserve c).ref_count = d.ref_count := by
  unfold StringData.Reserve; split <;> rfl

theorem StringData.ref_count_CopyData (d : StringData) (str : List Nat)
    (length pos : Nat) : (d.CopyData str length pos).ref_count = d.ref_count :=
  rfl

theorem StringData.capacity_CopyData (d : StringData) (str : List Nat)
    (length pos : Nat) : (d.CopyData str length pos).capacity = d.capacity :=
  rfl

theorem mkStringData_size (c : Nat) : (mkStringData c).size = 0 :=
  StringData.size_Reserve _ _

theorem mkStringData_ref_count (c : Nat) : (mkStringData c).ref_count = 1 :=
  StringData.ref_count_Reserve _ _

/-- C3: constructing a handle from a byte sequence of known length `n`
allocates a fresh block (a new heap index) holding a copy of the sequence:
afterwards `size()` is `n`, the first `n` buffer bytes are the input bytes,
and the fresh block starts at count `Shared(1)`. -/
theorem C3_construction_round_trip (H : Heap) (str : List Nat) (n : Nat)
    (hn : n = str.length) :
    (mkRCStringOfBytes H str n).2.data_ = H.blocks.length ∧
    (mkRCStringOfBytes H str n).1.blocks.length = H.blocks.length + 1 ∧
    ((mkRCStringOfBytes H str n).1.get
        (mkRCStringOfBytes H str n).2.data_).size = n ∧
    ((mkRCStringOfBytes H str n).1.get
        (mkRCStringOfBytes H str n).2.data_).buffer.take n = str ∧
    ((mkRCStringOfBytes H str n).1.get
        (mkRCStringOfBytes H str n).2.data_).ref_count = 1 := by
  have hget : (mkRCStringOfBytes H str n).1.get
      (mkRCStringOfBytes H str n).2.data_ = (mkStringData n).CopyData str n 0 := by
    unfold mkRCStringOfBytes
    exact Heap.get_alloc_new _ _
  refine ⟨rfl, by simp [mkRCStringOfBytes, Heap.alloc], ?_, ?_, ?_⟩
  · rw [hget]
    simp [StringData.CopyData, mkStringData_size]
  · rw [hget]
    have htake : str.take n = str := by rw [hn]; exact List.take_length str
    simp only [StringData.CopyData, List.take_nil, List.nil_append,
      List.take_zero, Nat.zero_add, htake]
    exact List.take_left' hn.symm
  · rw [hget, StringData.ref_count_CopyData, mkStringData_ref_count]

/-- Witness for C3 on the 5-byte sequence `[1, 2, 3, 4, 5]`. -/
theorem C3_construction_round_trip_witness :
    (mkRCStringOfBytes ⟨[]⟩ [1, 2, 3, 4, 5] 5).2.data_ = (⟨[]⟩ : Heap).blocks.length ∧
    (mkRCStringOfBytes ⟨[]⟩ [1, 2, 3, 4, 5] 5).1.blocks.length
      = (⟨[]⟩ : Heap).blocks.length + 1 ∧
    ((mkRCStringOfBytes ⟨[]⟩ [1, 2, 3, 4, 5] 5).1.get
        (mkRCStringOfBytes ⟨[]⟩ [1, 2, 3, 4, 5] 5).2.data_).size = 5 ∧
    ((mkRCStringOfBytes ⟨[]⟩ [1, 2, 3, 4, 5] 5).1.get
        (mkRCStringOfBytes ⟨[]⟩ [1, 2, 3, 4, 5] 5).2.data_).buffer.take 5
      = [1, 2, 3, 4, 5] ∧
    ((mkRCStringOfBytes ⟨[]⟩ [1, 2, 3, 4, 5] 5).1.get
        (mkRCStringOfBytes ⟨[]⟩ [1, 2, 3, 4, 5] 5).2.data_).ref_count = 1 :=
  C3_construction_round_trip ⟨[]⟩ [1, 2, 3, 4, 5] 5 rfl

/-- C5 (amended): copy construction from `A` whose block is not unsharedable
adopts the same block and increments the count — afterwards the shared block
reports `Unique() == false` and both handles' `data()` pointers coincide
(same block index) — while copy construction from an unsharedable block
allocates a fresh clone of the first `size` bytes at count `Shared(1)` and
never aliases the exclusive block.  The amendment: the source count `n` must
satisfy `n + 1 ≠ kUnsharedRefMark`, for at `n = 2^32 - 2` the increment
collides with the exclusivity sentinel (see the counterexample). -/
theorem C5_copy_semantics (H : Heap) (a : RCString)
    (hv : a.data_ < H.blocks.length)
    (h1 : 1 ≤ (H.get a.data_).ref_count)
    (h2 : (H.get a.data_).ref_count < uint_mod)
    (h3 : (H.get a.data_).ref_count + 1 ≠ kUnsharedRefMark)
    (hsz : (H.get a.data_).size ≤ (H.get a.data_).capacity)
    (hbuf : (H.get a.data_).buffer.length = (H.get a.data_).capacity) :
    ((H.get a.data_).Unsharedable = false →
      (copyRCString H a).2.data_ = a.data_ ∧
      ((copyRCString H a).1.get a.data_).ref_count
        = (H.get a.data_).ref_count + 1 ∧
      ((copyRCString H a).1.get a.data_).Unique = false) ∧
    ((H.get a.data_).Unsharedable = true →
      (copyRCString H a).2.data_ ≠ a.data_ ∧
      ((copyRCString H a).1.get (copyRCString H a).2.data_).ref_count = 1 ∧
      ((copyRCString H a).1.get (copyRCString H a).2.data_).size
        = (H.get a.data_).size ∧
      ((copyRCString H a).1.get (copyRCString H a).2.data_).buffer.take
          (H.get a.data_).size
        = (H.get a.data_).buffer.take (H.get a.data_).size ∧
      (copyRCString H a).1.get a.data_ = H.get a.data_) := by
  constructor
  · intro hns
    have hne : (H.get a.data_).ref_count ≠ kUnsharedRefMark := by
      simpa [StringData.Unsharedable] using hns
    have hcopy : copyRCString H a = (H.set a.data_ (H.get a.data_).AddRef,
        ⟨a.data_⟩) := by
      unfold copyRCString
      simp [hns]
    rw [hcopy]
    refine ⟨rfl, ?_, ?_⟩ <;> rw [Heap.get_set_self _ _ _ hv]
    · show ((H.get a.data_).ref_count + 1) % uint_mod = _
      simp only [uint_mod, kUnsharedRefMark] at *
      omega
    · show (((H.get a.data_).ref_count + 1) % uint_mod == 1
        || ((H.get a.data_).ref_count + 1) % uint_mod == kUnsharedRefMark) = false
      simp only [Bool.or_eq_false_iff, beq_eq_false_iff_ne, ne_eq]
      simp only [uint_mod, kUnsharedRefMark] at *
      omega
  · intro hs
    have hcopy : copyRCString H a =
        ((H.alloc ((H.get a.data_).Clone (H.get a.data_).size)).1,
         ⟨H.blocks.length⟩) := by
      unfold copyRCString
      simp [hs, Heap.alloc]
    have hclone : (H.get a.data_).Clone (H.get a.data_).size
        = (mkStringData (H.get a.data_).capacity).CopyData
            (H.get a.data_).buffer (H.get a.data_).size 0 := by
      unfold StringData.Clone
      rw [Nat.max_eq_right hsz]
    rw [hcopy]
    have hnew : (H.alloc ((H.get a.data_).Clone (H.get a.data_).size)).1.get
        H.blocks.length
        = (mkStringData (H.get a.data_).capacity).CopyData
            (H.get a.data_).buffer (H.get a.data_).size 0 := by
      rw [Heap.get_alloc_new, hclone]
    refine ⟨?_, ?_, ?_, ?_, Heap.get_alloc_old _ _ _ hv⟩
    · show H.blocks.length ≠ a.data_
      omega
    · simp only [hnew]
      rw [StringData.ref_count_CopyData, mkStringData_ref_count]
    · simp only [hnew]
      simp [StringData.CopyData, mkStringData_size]
    · simp only [hnew]
      simp only [StringData.CopyData, List.take_zero, List.nil_append,
        Nat.zero_add, mkStringData_size, Nat.max_zero]
      have hlen : ((H.get a.data_).buffer.take (H.get a.data_).size).length
          = (H.get a.data_).size := by
        rw [List.length_take]
        omega
      exact List.take_left' hlen

/-- Counterexample to C5 as stated: at source count `2^32 - 2` (a legitimate
`Shared(n)` state, not unsharedable, so the sharing branch is taken and the
copy adopts the same block) the `unsigned int` increment lands exactly on
`kUnsharedRefMark`, so afterwards the shared block reports `Unique() == true`
— the claim demands `Unique() == false` — and is even `Unsharedable()`. -/
theorem C5_counterexample :
    (Heap.get ⟨[⟨[], 0, 0, 2 ^ 32 - 2⟩]⟩ 0).Unsharedable = false ∧
    (copyRCString ⟨[⟨[], 0, 0, 2 ^ 32 - 2⟩]⟩ ⟨0⟩).2.data_ = 0 ∧
    ((copyRCString ⟨[⟨[], 0, 0, 2 ^ 32 - 2⟩]⟩ ⟨0⟩).1.get 0).Unique = true ∧
    ((copyRCString ⟨[⟨[], 0, 0, 2 ^ 32 - 2⟩]⟩ ⟨0⟩).1.get 0).Unsharedable
      = true := by
  decide

/-- Witness for C5 on a two-sharer block holding the bytes `[9, 8]`. -/
theorem C5_copy_semantics_witness :
    ((Heap.get ⟨[⟨[9, 8, 0, 0], 4, 2, 2⟩]⟩ 0).Unsharedable = false →
      (copyRCString ⟨[⟨[9, 8, 0, 0], 4, 2, 2⟩]⟩ ⟨0⟩).2.data_ = 0 ∧
      ((copyRCString ⟨[⟨[9, 8, 0, 0], 4, 2, 2⟩]⟩ ⟨0⟩).1.get 0).ref_count
        = (Heap.get ⟨[⟨[9, 8, 0, 0], 4, 2, 2⟩]⟩ 0).ref_count + 1 ∧
      ((copyRCString ⟨[⟨[9, 8, 0, 0], 4, 2, 2⟩]⟩ ⟨0⟩).1.get 0).Unique = false) ∧
    ((Heap.get ⟨[⟨[9, 8, 0, 0], 4, 2, 2⟩]⟩ 0).Unsharedable = true →
      (copyRCString ⟨[⟨[9, 8, 0, 0], 4, 2, 2⟩]⟩ ⟨0⟩).2.data_ ≠ 0 ∧
      ((copyRCString ⟨[⟨[9, 8, 0, 0], 4, 2, 2⟩]⟩ ⟨0⟩).1.get
          (copyRCString ⟨[⟨[9, 8, 0, 0], 4, 2, 2⟩]⟩ ⟨0⟩).2.data_).ref_count = 1 ∧
      ((copyRCString ⟨[⟨[9, 8, 0, 0], 4, 2, 2⟩]⟩ ⟨0⟩).1.get
          (copyRCString ⟨[⟨[9, 8, 0, 0], 4, 2, 2⟩]⟩ ⟨0⟩).2.data_).size
        = (Heap.get ⟨[⟨[9, 8, 0, 0], 4, 2, 2⟩]⟩ 0).size ∧
      ((copyRCString ⟨[⟨[9, 8, 0, 0], 4, 2, 2⟩]⟩ ⟨0⟩).1.get
          (copyRCString ⟨[⟨[9, 8, 0, 0], 4, 2, 2⟩]⟩ ⟨0⟩).2.data_).buffer.take
          (Heap.get ⟨[⟨[9, 8, 0, 0], 4, 2, 2⟩]⟩ 0).size
        = (Heap.get ⟨[⟨[9, 8, 0, 0], 4, 2, 2⟩]⟩ 0).buffer.take
            (Heap.get ⟨[⟨[9, 8, 0, 0], 4, 2, 2⟩]⟩ 0).size ∧
      (copyRCString ⟨[⟨[9, 8, 0, 0], 4, 2, 2⟩]⟩ ⟨0⟩).1.get 0
        = Heap.get ⟨[⟨[9, 8, 0, 0], 4, 2, 2⟩]⟩ 0) :=
  C5_copy_semantics ⟨[⟨[9, 8, 0, 0], 4, 2, 2⟩]⟩ ⟨0⟩ (by decide) (by decide)
    (by decide) (by decide) (by decide) (by decide)

theorem Heap.length_alloc (H : Heap) (d : StringData) :
    (H.alloc d).1.blocks.length = H.blocks.length + 1 := by
  simp [Heap.alloc]

/-- Copy construction from an unsharedable block allocates: the copy's block
is the fresh index. -/
theorem copyRCString_data_of_unsharedable (H : Heap) (a : RCString)
    (hs : (H.get a.data_).Unsharedable = true) :
    (copyRCString H a).2.data_ = H.blocks.length := by
  unfold copyRCString
  simp [hs, Heap.alloc]

/-- Copy construction from a sharedable block shares: the copy holds the same
block index. -/
theorem copyRCString_data_of_sharedable (H : Heap) (a : RCString)
    (hs : (H.get a.data_).Unsharedable = false) :
    (copyRCString H a).2.data_ = a.data_ := by
  unfold copyRCString
  simp [hs]

/-- A non-const indexed access always leaves the adopted block marked
`kUnsharedRefMark`, at a valid index. -/
theorem opIndexMut_marks (H : Heap) (a : RCString) (pos : Nat)
    (hv : a.data_ < H.blocks.length) :
    ((RCString.opIndexMut H a pos).1.get
        (RCString.opIndexMut H a pos).2.data_).ref_count = kUnsharedRefMark ∧
    (RCString.opIndexMut H a pos).2.data_
      < (RCString.opIndexMut H a pos).1.blocks.length := by
  unfold RCString.opIndexMut
  cases hu : (H.get a.data_).Unique with
  | true =>
    rw [PrepareToModify_unique _ _ _ _ hv hu]
    constructor
    · rw [Heap.get_set_self _ _ _ hv]
      rfl
    · rw [Heap.length_set]
      exact hv
  | false =>
    rw [PrepareToModify_not_unique _ _ _ _ hv hu]
    have hlen : (((H.set a.data_ ((H.get a.data_).Release).2).alloc
        ((H.get a.data_).Clone (H.get a.data_).size)).1).blocks.length
        = H.blocks.length + 1 := by
      rw [Heap.length_alloc, Heap.length_set]
    constructor
    · rw [Heap.get_set_self _ _ _ (by rw [hlen]; omega)]
      rfl
    · simp only [Heap.length_set, hlen]
      omega

/-- `Append` on a handle whose block is unique keeps the block (no detach),
and afterwards the block's count is reset to 1 (`ResetSharedable`). -/
theorem Append_of_unique (H : Heap) (h : RCString) (str : List Nat)
    (len : Nat) (hv : h.data_ < H.blocks.length)
    (hu : (H.get h.data_).Unique = true) :
    (RCString.Append H h str len).2 = h ∧
    ((RCString.Append H h str len).1.get h.data_).ref_count = 1 ∧
    (RCString.Append H h str len).1.blocks.length = H.blocks.length := by
  simp only [RCString.Append]
  rw [PrepareToModify_unique _ _ _ _ hv hu]
  simp only [Bool.false_eq_true, if_false, Heap.length_set]
  refine ⟨trivial, ?_, trivial⟩
  rw [Heap.get_set_self _ _ _ (by rw [Heap.length_set]; exact hv),
    Heap.get_set_self _ _ _ hv, StringData.ref_count_CopyData]
  rfl

/-- C2 (amended): after a non-const indexed access on `A` the adopted block is
`Exclusive` (`Unsharedable`), and while it stays so a copy construction from
`A` clones a fresh block (different `data()`); but the exclusivity is not
permanent: the next `Append` on `A` runs `PrepareToModify(..., false)`, whose
`ResetSharedable()` returns the block to `Shared(1)`, after which a copy
construction from `A` shares the block again (equal `data()`). -/
theorem C2_exclusive_until_next_append (H : Heap) (a : RCString)
    (pos : Nat) (str : List Nat) (len : Nat)
    (hv : a.data_ < H.blocks.length) :
    ((RCString.opIndexMut H a pos).1.get
        (RCString.opIndexMut H a pos).2.data_).Unsharedable = true ∧
    (copyRCString (RCString.opIndexMut H a pos).1
        (RCString.opIndexMut H a pos).2).2.data_
      ≠ (RCString.opIndexMut H a pos).2.data_ ∧
    (RCString.Append (RCString.opIndexMut H a pos).1
        (RCString.opIndexMut H a pos).2 str len).2
      = (RCString.opIndexMut H a pos).2 ∧
    ((RCString.Append (RCString.opIndexMut H a pos).1
        (RCString.opIndexMut H a pos).2 str len).1.get
        (RCString.opIndexMut H a pos).2.data_).Unsharedable = false ∧
    (copyRCString
        (RCString.Append (RCString.opIndexMut H a pos).1
          (RCString.opIndexMut H a pos).2 str len).1
        (RCString.Append (RCString.opIndexMut H a pos).1
          (RCString.opIndexMut H a pos).2 str len).2).2.data_
      = (RCString.Append (RCString.opIndexMut H a pos).1
          (RCString.opIndexMut H a pos).2 str len).2.data_ := by
  obtain ⟨hm, hvl⟩ := opIndexMut_marks H a pos hv
  have hunsh : ((RCString.opIndexMut H a pos).1.get
      (RCString.opIndexMut H a pos).2.data_).Unsharedable = true := by
    simp [StringData.Unsharedable, hm]
  have huniq : ((RCString.opIndexMut H a pos).1.get
      (RCString.opIndexMut H a pos).2.data_).Unique = true := by
    simp [StringData.Unique, hm]
  obtain ⟨happ2, happref, happlen⟩ :=
    Append_of_unique (RCString.opIndexMut H a pos).1
      (RCString.opIndexMut H a pos).2 str len hvl huniq
  have hres : ((RCString.Append (RCString.opIndexMut H a pos).1
      (RCString.opIndexMut H a pos).2 str len).1.get
      (RCString.opIndexMut H a pos).2.data_).Unsharedable = false := by
    simp [StringData.Unsharedable, happref, kUnsharedRefMark]
  refine ⟨hunsh, ?_, happ2, hres, ?_⟩
  · rw [copyRCString_data_of_unsharedable _ _ hunsh]
    omega
  · rw [copyRCString_data_of_sharedable]
    rw [happ2]
    exact hres

/-- Counterexample to C2 as stated: construct `A` from three bytes, take a
non-const indexed access (block becomes exclusive), then `Append` one byte —
`PrepareToModify(new_size, false)` calls `ResetSharedable()`, returning the
very same block to `Shared(1)` — and copy-construct `B` from `A`: `B` shares
`A`'s block (`data()` pointers equal, count 2) instead of cloning, so the
block was not exclusive for the remainder of its life. -/
theorem C2_counterexample :
    let p1 := mkRCStringOfBytes ⟨[]⟩ [1, 2, 3] 3
    let p2 := RCString.opIndexMut p1.1 p1.2 0
    let p3 := RCString.Append p2.1 p2.2 [7] 1
    let p4 := copyRCString p3.1 p3.2
    p4.2.data_ = p1.2.data_ ∧ p3.2.data_ = p1.2.data_ ∧
    (p4.1.get p4.2.data_).ref_count = 2 ∧
    (p4.1.get p4.2.data_).Unsharedable = false := by
  decide

/-- Witness for C2 on a concrete one-block heap. -/
theorem C2_exclusive_until_next_append_witness :
    ((RCString.opIndexMut ⟨[⟨[1, 2, 3, 0], 4, 3, 1⟩]⟩ ⟨0⟩ 0).1.get
        (RCString.opIndexMut ⟨[⟨[1, 2, 3, 0], 4, 3, 1⟩]⟩ ⟨0⟩ 0).2.data_).Unsharedable
      = true ∧
    (copyRCString (RCString.opIndexMut ⟨[⟨[1, 2, 3, 0], 4, 3, 1⟩]⟩ ⟨0⟩ 0).1
        (RCString.opIndexMut ⟨[⟨[1, 2, 3, 0], 4, 3, 1⟩]⟩ ⟨0⟩ 0).2).2.data_
      ≠ (RCString.opIndexMut ⟨[⟨[1, 2, 3, 0], 4, 3, 1⟩]⟩ ⟨0⟩ 0).2.data_ ∧
    (RCString.Append (RCString.opIndexMut ⟨[⟨[1, 2, 3, 0], 4, 3, 1⟩]⟩ ⟨0⟩ 0).1
        (RCString.opIndexMut ⟨[⟨[1, 2, 3, 0], 4, 3, 1⟩]⟩ ⟨0⟩ 0).2 [7] 1).2
      = (RCString.opIndexMut ⟨[⟨[1, 2, 3, 0], 4, 3, 1⟩]⟩ ⟨0⟩ 0).2 ∧
    ((RCString.Append (RCString.opIndexMut ⟨[⟨[1, 2, 3, 0], 4, 3, 1⟩]⟩ ⟨0⟩ 0).1
        (RCString.opIndexMut ⟨[⟨[1, 2, 3, 0], 4, 3, 1⟩]⟩ ⟨0⟩ 0).2 [7] 1).1.get
        (RCString.opIndexMut ⟨[⟨[1, 2, 3, 0], 4, 3, 1⟩]⟩ ⟨0⟩ 0).2.data_).Unsharedable
      = false ∧
    (copyRCString
        (RCString.Append (RCString.opIndexMut ⟨[⟨[1, 2, 3, 0], 4, 3, 1⟩]⟩ ⟨0⟩ 0).1
          (RCString.opIndexMut ⟨[⟨[1, 2, 3, 0], 4, 3, 1⟩]⟩ ⟨0⟩ 0).2 [7] 1).1
        (RCString.Append (RCString.opIndexMut ⟨[⟨[1, 2, 3, 0], 4, 3, 1⟩]⟩ ⟨0⟩ 0).1
          (RCString.opIndexMut ⟨[⟨[1, 2, 3, 0], 4, 3, 1⟩]⟩ ⟨0⟩ 0).2 [7] 1).2).2.data_
      = (RCString.Append (RCString.opIndexMut ⟨[⟨[1, 2, 3, 0], 4, 3, 1⟩]⟩ ⟨0⟩ 0).1
          (RCString.opIndexMut ⟨[⟨[1, 2, 3, 0], 4, 3, 1⟩]⟩ ⟨0⟩ 0).2 [7] 1).2.data_ :=
  C2_exclusive_until_next_append ⟨[⟨[1, 2, 3, 0], 4, 3, 1⟩]⟩ ⟨0⟩ 0 [7] 1
    (by decide)

/-- `Release` on a two-sharer block: returns false and leaves count 1. -/
theorem StringData.Release_two (d : StringData) (h2 : d.ref_count = 2) :
    d.Release = (false, { d with ref_count := 1 }) := by
  have hnu : d.Unsharedable = false := by
    simp [StringData.Unsharedable, h2, kUnsharedRefMark]
  simp [StringData.Release, hnu, h2, uint_mod]

/-- `Append` on a handle whose block is shared (not unique) detaches: the
handle adopts a freshly allocated block whose count ends at 1, and the old
block is left exactly as `Release` leaves it. -/
theorem Append_of_not_unique (H : Heap) (h : RCString) (str : List Nat)
    (len : Nat) (hv : h.data_ < H.blocks.length)
    (hu : (H.get h.data_).Unique = false) :
    (RCString.Append H h str len).2 = ⟨H.blocks.length⟩ ∧
    (RCString.Append H h str len).1.get h.data_ = ((H.get h.data_).Release).2 ∧
    ((RCString.Append H h str len).1.get H.blocks.length).ref_count = 1 ∧
    (RCString.Append H h str len).1.blocks.length = H.blocks.length + 1 := by
  simp only [RCString.Append]
  rw [PrepareToModify_not_unique _ _ _ _ hv hu]
  simp only [Bool.false_eq_true, if_false]
  have hKlen : (((H.set h.data_ ((H.get h.data_).Release).2).alloc
      ((H.get h.data_).Clone (((H.get h.data_).size + len) % size_t_mod))).1).blocks.length
      = H.blocks.length + 1 := by
    rw [Heap.length_alloc, Heap.length_set]
  have hLlt : H.blocks.length < H.blocks.length + 1 := Nat.lt_succ_self _
  refine ⟨trivial, ?_, ?_, ?_⟩
  · rw [Heap.get_set_ne _ _ _ _ (by omega),
      Heap.get_set_ne _ _ _ _ (by omega),
      Heap.get_alloc_old _ _ _ (by rw [Heap.length_set]; exact hv),
      Heap.get_set_self _ _ _ hv]
  · rw [Heap.get_set_self _ _ _ (by rw [Heap.length_set, hKlen]; exact hLlt),
      Heap.get_set_self _ _ _ (by rw [hKlen]; exact hLlt),
      StringData.ref_count_CopyData]
    rfl
  · rw [Heap.length_set, Heap.length_set, hKlen]

/-- C6: with `A` and `B` the two sole sharers of block `i` (count 2), after
`B.Append(str, len)` the original block is untouched except for its count
(same size, same bytes) and now unique for `A`, while `B` holds a fresh block
(different `data()` pointer) that is also unique. -/
theorem C6_detach_on_write (H : Heap) (i : Nat) (str : List Nat) (len : Nat)
    (hv : i < H.blocks.length)
    (h2 : (H.get i).ref_count = 2) :
    ((RCString.Append H ⟨i⟩ str len).1.get i).size = (H.get i).size ∧
    ((RCString.Append H ⟨i⟩ str len).1.get i).buffer = (H.get i).buffer ∧
    ((RCString.Append H ⟨i⟩ str len).1.get i).Unique = true ∧
    ((RCString.Append H ⟨i⟩ str len).1.get i).ref_count = 1 ∧
    (RCString.Append H ⟨i⟩ str len).2.data_ ≠ i ∧
    ((RCString.Append H ⟨i⟩ str len).1.get
        (RCString.Append H ⟨i⟩ str len).2.data_).Unique = true := by
  have hu : (H.get i).Unique = false := by
    simp [StringData.Unique, h2, kUnsharedRefMark]
  obtain ⟨ha2, haold, haref, halen⟩ :=
    Append_of_not_unique H ⟨i⟩ str len hv hu
  have holdval : (RCString.Append H ⟨i⟩ str len).1.get i
      = { H.get i with ref_count := 1 } := by
    rw [haold, StringData.Release_two _ h2]
  refine ⟨?_, ?_, ?_, ?_, ?_, ?_⟩
  · rw [holdval]
  · rw [holdval]
  · rw [holdval]; simp [StringData.Unique]
  · rw [holdval]
  · rw [ha2]
    show H.blocks.length ≠ i
    omega
  · rw [ha2]
    show ((RCString.Append H ⟨i⟩ str len).1.get H.blocks.length).Unique = true
    simp [StringData.Unique, haref]

/-- Witness for C6 on a two-sharer block holding `[5, 6]`. -/
theorem C6_detach_on_write_witness :
    ((RCString.Append ⟨[⟨[5, 6, 0, 0], 4, 2, 2⟩]⟩ ⟨0⟩ [9] 1).1.get 0).size
      = (Heap.get ⟨[⟨[5, 6, 0, 0], 4, 2, 2⟩]⟩ 0).size ∧
    ((RCString.Append ⟨[⟨[5, 6, 0, 0], 4, 2, 2⟩]⟩ ⟨0⟩ [9] 1).1.get 0).buffer
      = (Heap.get ⟨[⟨[5, 6, 0, 0], 4, 2, 2⟩]⟩ 0).buffer ∧
    ((RCString.Append ⟨[⟨[5, 6, 0, 0], 4, 2, 2⟩]⟩ ⟨0⟩ [9] 1).1.get 0).Unique
      = true ∧
    ((RCString.Append ⟨[⟨[5, 6, 0, 0], 4, 2, 2⟩]⟩ ⟨0⟩ [9] 1).1.get 0).ref_count
      = 1 ∧
    (RCString.Append ⟨[⟨[5, 6, 0, 0], 4, 2, 2⟩]⟩ ⟨0⟩ [9] 1).2.data_ ≠ 0 ∧
    ((RCString.Append ⟨[⟨[5, 6, 0, 0], 4, 2, 2⟩]⟩ ⟨0⟩ [9] 1).1.get
        (RCString.Append ⟨[⟨[5, 6, 0, 0], 4, 2, 2⟩]⟩ ⟨0⟩ [9] 1).2.data_).Unique
      = true :=
  C6_detach_on_write ⟨[⟨[5, 6, 0, 0], 4, 2, 2⟩]⟩ 0 [9] 1 (by decide) (by decide)

/-- In the non-wrapping regime, `RoundToMultiple(n, 4)` is `n` rounded up to
the nearest multiple of 4. -/
theorem RoundToMultiple_four (n : Nat) (h1 : 1 ≤ n) (h2 : n + 3 < size_t_mod) :
    RoundToMultiple n kBaseSize = 4 * ((n + 3) / 4) := by
  have hmod : (n + (size_t_mod - 1)) % size_t_mod = n - 1 := by
    simp only [size_t_mod] at *
    omega
  simp only [RoundToMultiple, kBaseSize, hmod]
  rw [if_neg (by norm_num)]
  simp only [size_t_mod] at *
  omega

/-- C4: for both policies, `Reserve(required_capacity)` is a no-op when the
requirement is already met; otherwise the new capacity is
`max(capacity * 3 / 2, required_capacity)` rounded up to the next multiple of
4, the first `size` bytes are preserved into the new buffer, the logical size
is unchanged, and capacity never decreases.  (Stated in the non-wrapping
regime `capacity * 3 < 2^64`, `required_capacity + 3 < 2^64`; beyond it the
`new char[new_capacity]` allocation is unsatisfiable anyway.) -/
theorem C4_reserve_growth (d : StringData) (td : ThreadSafeStringData)
    (rc trc : Nat)
    (hbuf : d.size ≤ d.buffer.length)
    (hcap : d.capacity * 3 < size_t_mod) (hrc : rc + 3 < size_t_mod)
    (htbuf : td.size ≤ td.buffer.length)
    (htcap : td.capacity * 3 < size_t_mod) (htrc : trc + 3 < size_t_mod) :
    ((rc ≤ d.capacity → d.Reserve rc = d) ∧
     (d.capacity < rc →
       (d.Reserve rc).capacity = 4 * ((max (d.capacity * 3 / 2) rc + 3) / 4) ∧
       (d.Reserve rc).buffer.take d.size = d.buffer.take d.size ∧
       (d.Reserve rc).size = d.size) ∧
     d.capacity ≤ (d.Reserve rc).capacity) ∧
    ((trc ≤ td.capacity → td.Reserve trc = td) ∧
     (td.capacity < trc →
       (td.Reserve trc).capacity
         = 4 * ((max (td.capacity * 3 / 2) trc + 3) / 4) ∧
       (td.Reserve trc).buffer.take td.size = td.buffer.take td.size ∧
       (td.Reserve trc).size = td.size) ∧
     td.capacity ≤ (td.Reserve trc).capacity) := by
  have hm3 : d.capacity * 3 % size_t_mod = d.capacity * 3 :=
    Nat.mod_eq_of_lt hcap
  have htm3 : td.capacity * 3 % size_t_mod = td.capacity * 3 :=
    Nat.mod_eq_of_lt htcap
  refine ⟨⟨?_, ?_, ?_⟩, ?_, ?_, ?_⟩
  · intro h
    simp only [StringData.Reserve]
    rw [if_pos h]
  · intro h
    have hb1 : 1 ≤ max (d.capacity * 3 / 2) rc := by omega
    have hb2 : max (d.capacity * 3 / 2) rc + 3 < size_t_mod := by
      simp only [size_t_mod] at *
      omega
    simp only [StringData.Reserve]
    rw [if_neg (Nat.not_le.mpr h), hm3, RoundToMultiple_four _ hb1 hb2]
    refine ⟨rfl, ?_, rfl⟩
    exact List.take_left' (by rw [List.length_take]; omega)
  · by_cases h : rc ≤ d.capacity
    · simp only [StringData.Reserve]
      rw [if_pos h]
    · have h' : d.capacity < rc := Nat.not_le.mp h
      have hb1 : 1 ≤ max (d.capacity * 3 / 2) rc := by omega
      have hb2 : max (d.capacity * 3 / 2) rc + 3 < size_t_mod := by
        simp only [size_t_mod] at *
        omega
      simp only [StringData.Reserve]
      rw [if_neg h]
      show d.capacity
        ≤ RoundToMultiple (max (d.capacity * 3 % size_t_mod / 2) rc) kBaseSize
      rw [hm3, RoundToMultiple_four _ hb1 hb2]
      omega
  · intro h
    simp only [ThreadSafeStringData.Reserve]
    rw [if_pos h]
  · intro h
    have hb1 : 1 ≤ max (td.capacity * 3 / 2) trc := by omega
    have hb2 : max (td.capacity * 3 / 2) trc + 3 < size_t_mod := by
      simp only [size_t_mod] at *
      omega
    simp only [ThreadSafeStringData.Reserve]
    rw [if_neg (Nat.not_le.mpr h), htm3, RoundToMultiple_four _ hb1 hb2]
    refine ⟨rfl, ?_, rfl⟩
    exact List.take_left' (by rw [List.length_take]; omega)
  · by_cases h : trc ≤ td.capacity
    · simp only [ThreadSafeStringData.Reserve]
      rw [if_pos h]
    · have h' : td.capacity < trc := Nat.not_le.mp h
      have hb1 : 1 ≤ max (td.capacity * 3 / 2) trc := by omega
      have hb2 : max (td.capacity * 3 / 2) trc + 3 < size_t_mod := by
        simp only [size_t_mod] at *
        omega
      simp only [ThreadSafeStringData.Reserve]
      rw [if_neg h]
      show td.capacity
        ≤ RoundToMultiple (max (td.capacity * 3 % size_t_mod / 2) trc) kBaseSize
      rw [htm3, RoundToMultiple_four _ hb1 hb2]
      omega

/-- Witness for C4: a 4-capacity block asked to reserve 9 for each policy. -/
theorem C4_reserve_growth_witness :
    ((9 ≤ (⟨[1, 2, 3, 0], 4, 3, 1⟩ : StringData).capacity →
        StringData.Reserve ⟨[1, 2, 3, 0], 4, 3, 1⟩ 9 = ⟨[1, 2, 3, 0], 4, 3, 1⟩) ∧
     ((⟨[1, 2, 3, 0], 4, 3, 1⟩ : StringData).capacity < 9 →
        (StringData.Reserve ⟨[1, 2, 3, 0], 4, 3, 1⟩ 9).capacity
          = 4 * ((max ((⟨[1, 2, 3, 0], 4, 3, 1⟩ : StringData).capacity * 3 / 2) 9 + 3) / 4) ∧
        (StringData.Reserve ⟨[1, 2, 3, 0], 4, 3, 1⟩ 9).buffer.take
            (⟨[1, 2, 3, 0], 4, 3, 1⟩ : StringData).size
          = (⟨[1, 2, 3, 0], 4, 3, 1⟩ : StringData).buffer.take
              (⟨[1, 2, 3, 0], 4, 3, 1⟩ : StringData).size ∧
        (StringData.Reserve ⟨[1, 2, 3, 0], 4, 3, 1⟩ 9).size
          = (⟨[1, 2, 3, 0], 4, 3, 1⟩ : StringData).size) ∧
     (⟨[1, 2, 3, 0], 4, 3, 1⟩ : StringData).capacity
       ≤ (StringData.Reserve ⟨[1, 2, 3, 0], 4, 3, 1⟩ 9).capacity) ∧
    ((9 ≤ (⟨[7, 0, 0, 0], 4, 1, 1⟩ : ThreadSafeStringData).capacity →
        ThreadSafeStringData.Reserve ⟨[7, 0, 0, 0], 4, 1, 1⟩ 9
          = ⟨[7, 0, 0, 0], 4, 1, 1⟩) ∧
     ((⟨[7, 0, 0, 0], 4, 1, 1⟩ : ThreadSafeStringData).capacity < 9 →
        (ThreadSafeStringData.Reserve ⟨[7, 0, 0, 0], 4, 1, 1⟩ 9).capacity
          = 4 * ((max ((⟨[7, 0, 0, 0], 4, 1, 1⟩ : ThreadSafeStringData).capacity * 3 / 2) 9 + 3) / 4) ∧
        (ThreadSafeStringData.Reserve ⟨[7, 0, 0, 0], 4, 1, 1⟩ 9).buffer.take
            (⟨[7, 0, 0, 0], 4, 1, 1⟩ : ThreadSafeStringData).size
          = (⟨[7, 0, 0, 0], 4, 1, 1⟩ : ThreadSafeStringData).buffer.take
              (⟨[7, 0, 0, 0], 4, 1, 1⟩ : ThreadSafeStringData).size ∧
        (ThreadSafeStringData.Reserve ⟨[7, 0, 0, 0], 4, 1, 1⟩ 9).size
          = (⟨[7, 0, 0, 0], 4, 1, 1⟩ : ThreadSafeStringData).size) ∧
     (⟨[7, 0, 0, 0], 4, 1, 1⟩ : ThreadSafeStringData).capacity
       ≤ (ThreadSafeStringData.Reserve ⟨[7, 0, 0, 0], 4, 1, 1⟩ 9).capacity) :=
  C4_reserve_growth ⟨[1, 2, 3, 0], 4, 3, 1⟩ ⟨[7, 0, 0, 0], 4, 1, 1⟩ 9 9
    (by decide) (by decide) (by decide) (by decide) (by decide) (by decide)

/-- Reading a byte of a buffer spliced by an in-place write of `len` bytes of
`str` at offset `pos` (exactly the buffer `CopyData` produces). -/
theorem getD_splice (buf str : List Nat) (pos len j : Nat)
    (hpl : pos + len ≤ buf.length) (hls : len ≤ str.length) :
    (buf.take pos ++ (str.take len ++ buf.drop (pos + len))).getD j 0
      = if j < pos then buf.getD j 0
        else if j < pos + len then str.getD (j - pos) 0
        else buf.getD j 0 := by
  have h1 : (buf.take pos).length = pos := by
    rw [List.length_take]; omega
  have h2 : (str.take len).length = len := by
    rw [List.length_take]; omega
  simp only [List.getD_eq_getElem?_getD]
  by_cases hc1 : j < pos
  · rw [if_pos hc1, List.getElem?_append_left (by omega),
      List.getElem?_take_of_lt (by omega)]
  · rw [if_neg hc1, List.getElem?_append_right (by omega), h1]
    by_cases hc2 : j < pos + len
    · rw [if_pos hc2, List.getElem?_append_left (by omega),
        List.getElem?_take_of_lt (by omega)]
    · rw [if_neg hc2, List.getElem?_append_right (by omega), h2,
        List.getElem?_drop]
      congr 2
      omega

/-- C7: for both policies, under the preconditions `Unique()`, `pos ≤ size`
and `pos + length ≤ capacity`, `CopyData(str, length, pos)` writes exactly
`length` bytes of `str` at offset `pos` — every byte below `pos` and every
byte at or beyond `pos + length` is unchanged, the buffer's allocation is
untouched — and afterwards `size = max(pos + length, size)` while the
capacity is unchanged. -/
theorem C7_copydata (d : StringData) (td : ThreadSafeStringData)
    (str tstr : List Nat) (length pos tlength tpos : Nat)
    (hq : d.Unique = true) (hp : pos ≤ d.size)
    (hc : pos + length ≤ d.capacity)
    (hbl : d.buffer.length = d.capacity) (hsl : length ≤ str.length)
    (htq : td.Unique = true) (htp : tpos ≤ td.size)
    (htc : tpos + tlength ≤ td.capacity)
    (htbl : td.buffer.length = td.capacity) (htsl : tlength ≤ tstr.length) :
    ((d.CopyData str length pos).capacity = d.capacity ∧
     (d.CopyData str length pos).size = max (pos + length) d.size ∧
     (d.CopyData str length pos).buffer.length = d.buffer.length ∧
     (∀ i, i < length →
       (d.CopyData str length pos).buffer.getD (pos + i) 0 = str.getD i 0) ∧
     (∀ j, j < pos →
       (d.CopyData str length pos).buffer.getD j 0 = d.buffer.getD j 0) ∧
     (∀ j, pos + length ≤ j →
       (d.CopyData str length pos).buffer.getD j 0 = d.buffer.getD j 0)) ∧
    ((td.CopyData tstr tlength tpos).capacity = td.capacity ∧
     (td.CopyData tstr tlength tpos).size = max (tpos + tlength) td.size ∧
     (td.CopyData tstr tlength tpos).buffer.length = td.buffer.length ∧
     (∀ i, i < tlength →
       (td.CopyData tstr tlength tpos).buffer.getD (tpos + i) 0
         = tstr.getD i 0) ∧
     (∀ j, j < tpos →
       (td.CopyData tstr tlength tpos).buffer.getD j 0 = td.buffer.getD j 0) ∧
     (∀ j, tpos + tlength ≤ j →
       (td.CopyData tstr tlength tpos).buffer.getD j 0 = td.buffer.getD j 0)) := by
  have hpl : pos + length ≤ d.buffer.length := by omega
  have htpl : tpos + tlength ≤ td.buffer.length := by omega
  refine ⟨⟨rfl, rfl, ?_, ?_, ?_, ?_⟩, rfl, rfl, ?_, ?_, ?_, ?_⟩
  · simp only [StringData.CopyData, List.length_append, List.length_take,
      List.length_drop]
    omega
  · intro i hi
    simp only [StringData.CopyData, List.append_assoc]
    rw [getD_splice _ _ _ _ _ hpl hsl, if_neg (by omega), if_pos (by omega),
      Nat.add_sub_cancel_left]
  · intro j hj
    simp only [StringData.CopyData, List.append_assoc]
    rw [getD_splice _ _ _ _ _ hpl hsl, if_pos hj]
  · intro j hj
    simp only [StringData.CopyData, List.append_assoc]
    rw [getD_splice _ _ _ _ _ hpl hsl, if_neg (by omega), if_neg (by omega)]
  · simp only [ThreadSafeStringData.CopyData, List.length_append,
      List.length_take, List.length_drop]
    omega
  · intro i hi
    simp only [ThreadSafeStringData.CopyData, List.append_assoc]
    rw [getD_splice _ _ _ _ _ htpl htsl, if_neg (by omega), if_pos (by omega),
      Nat.add_sub_cancel_left]
  · intro j hj
    simp only [ThreadSafeStringData.CopyData, List.append_assoc]
    rw [getD_splice _ _ _ _ _ htpl htsl, if_pos hj]
  · intro j hj
    simp only [ThreadSafeStringData.CopyData, List.append_assoc]
    rw [getD_splice _ _ _ _ _ htpl htsl, if_neg (by omega), if_neg (by omega)]

/-- Witness for C7: write `[7, 8]` at offset 1 of a `[1, 2, 3, _]` block
(non-synchronized) and `[9]` at offset 3 of the same block (synchronized). -/
theorem C7_copydata_witness :
    ((StringData.CopyData ⟨[1, 2, 3, 0], 4, 3, 1⟩ [7, 8] 2 1).capacity
       = (⟨[1, 2, 3, 0], 4, 3, 1⟩ : StringData).capacity ∧
     (StringData.CopyData ⟨[1, 2, 3, 0], 4, 3, 1⟩ [7, 8] 2 1).size
       = max (1 + 2) (⟨[1, 2, 3, 0], 4, 3, 1⟩ : StringData).size ∧
     (StringData.CopyData ⟨[1, 2, 3, 0], 4, 3, 1⟩ [7, 8] 2 1).buffer.length
       = (⟨[1, 2, 3, 0], 4, 3, 1⟩ : StringData).buffer.length ∧
     (∀ i, i < 2 →
       (StringData.CopyData ⟨[1, 2, 3, 0], 4, 3, 1⟩ [7, 8] 2 1).buffer.getD
           (1 + i) 0 = ([7, 8] : List Nat).getD i 0) ∧
     (∀ j, j < 1 →
       (StringData.CopyData ⟨[1, 2, 3, 0], 4, 3, 1⟩ [7, 8] 2 1).buffer.getD j 0
         = ([1, 2, 3, 0] : List Nat).getD j 0) ∧
     (∀ j, 1 + 2 ≤ j →
       (StringData.CopyData ⟨[1, 2, 3, 0], 4, 3, 1⟩ [7, 8] 2 1).buffer.getD j 0
         = ([1, 2, 3, 0] : List Nat).getD j 0)) ∧
    ((ThreadSafeStringData.CopyData ⟨[1, 2, 3, 0], 4, 3, 1⟩ [9] 1 3).capacity
       = (⟨[1, 2, 3, 0], 4, 3, 1⟩ : ThreadSafeStringData).capacity ∧
     (ThreadSafeStringData.CopyData ⟨[1, 2, 3, 0], 4, 3, 1⟩ [9] 1 3).size
       = max (3 + 1) (⟨[1, 2, 3, 0], 4, 3, 1⟩ : ThreadSafeStringData).size ∧
     (ThreadSafeStringData.CopyData ⟨[1, 2, 3, 0], 4, 3, 1⟩ [9] 1 3).buffer.length
       = (⟨[1, 2, 3, 0], 4, 3, 1⟩ : ThreadSafeStringData).buffer.length ∧
     (∀ i, i < 1 →
       (ThreadSafeStringData.CopyData ⟨[1, 2, 3, 0], 4, 3, 1⟩ [9] 1 3).buffer.getD
           (3 + i) 0 = ([9] : List Nat).getD i 0) ∧
     (∀ j, j < 3 →
       (ThreadSafeStringData.CopyData ⟨[1, 2, 3, 0], 4, 3, 1⟩ [9] 1 3).buffer.getD
           j 0 = ([1, 2, 3, 0] : List Nat).getD j 0) ∧
     (∀ j, 3 + 1 ≤ j →
       (ThreadSafeStringData.CopyData ⟨[1, 2, 3, 0], 4, 3, 1⟩ [9] 1 3).buffer.getD
           j 0 = ([1, 2, 3, 0] : List Nat).getD j 0)) :=
  C7_copydata ⟨[1, 2, 3, 0], 4, 3, 1⟩ ⟨[1, 2, 3, 0], 4, 3, 1⟩ [7, 8] [9] 2 1 1 3
    (by decide) (by decide) (by decide) (by decide) (by decide)
    (by decide) (by decide) (by decide) (by decide) (by decide)

/-! ### Growth invariant machinery (claim C8) -/

/-- A sequence of `Append(str, length)` calls applied to one handle. -/
def appendAll (H : Heap) (h : RCString) (ops : List (List Nat × Nat)) :
    Heap × RCString :=
  match ops with
  | [] => (H, h)
  | op :: rest =>
    appendAll (RCString.Append H h op.1 op.2).1
      (RCString.Append H h op.1 op.2).2 rest

/-- Total number of bytes appended by a sequence of `Append` calls. -/
def totalLen (ops : List (List Nat × Nat)) : Nat :=
  (ops.map Prod.snd).sum

/-- The block invariant maintained by the growth machinery: capacity is a
multiple of the base granularity, the logical size fits, the buffer is the
allocation, and (to stay in the regime where `size_t` cannot wrap and
`new char[]` is satisfiable) the capacity is at most `2^62`. -/
def GoodBlock (d : StringData) : Prop :=
  d.capacity % 4 = 0 ∧ d.size ≤ d.capacity ∧
  d.buffer.length = d.capacity ∧ d.capacity ≤ 2 ^ 62

theorem totalLen_cons (op : List Nat × Nat) (rest : List (List Nat × Nat)) :
    totalLen (op :: rest) = op.2 + totalLen rest := by
  simp [totalLen]

/-- `Reserve` preserves the invariant and establishes the requested capacity
(for requests within the `2^60` budget). -/
theorem Reserve_good (d : StringData) (rq : Nat)
    (hg : GoodBlock d) (hrq : rq ≤ 2 ^ 60) :
    GoodBlock (d.Reserve rq) ∧ rq ≤ (d.Reserve rq).capacity ∧
    (d.Reserve rq).size = d.size ∧ (d.Reserve rq).buffer.take d.size
      = d.buffer.take d.size ∧
    (d.Reserve rq).ref_count = d.ref_count := by
  obtain ⟨h4, hsc, hbl, hcb⟩ := hg
  by_cases hle : rq ≤ d.capacity
  · simp only [StringData.Reserve]
    rw [if_pos hle]
    exact ⟨⟨h4, hsc, hbl, hcb⟩, hle, rfl, rfl, rfl⟩
  · have hlt : d.capacity < rq := Nat.not_le.mp hle
    have hm3 : d.capacity * 3 % size_t_mod = d.capacity * 3 := by
      apply Nat.mod_eq_of_lt
      simp only [size_t_mod]
      omega
    have hb1 : 1 ≤ max (d.capacity * 3 / 2) rq := by omega
    have hb2 : max (d.capacity * 3 / 2) rq + 3 < size_t_mod := by
      simp only [size_t_mod]
      omega
    simp only [StringData.Reserve]
    rw [if_neg hle, hm3, RoundToMultiple_four _ hb1 hb2]
    refine ⟨⟨?_, ?_, ?_, ?_⟩, ?_, rfl, ?_, rfl⟩
    · show 4 * ((max (d.capacity * 3 / 2) rq + 3) / 4) % 4 = 0
      omega
    · show d.size ≤ 4 * ((max (d.capacity * 3 / 2) rq + 3) / 4)
      omega
    · show (d.buffer.take d.size ++ List.replicate
          (4 * ((max (d.capacity * 3 / 2) rq + 3) / 4) - d.size) 0).length
        = 4 * ((max (d.capacity * 3 / 2) rq + 3) / 4)
      rw [List.length_append, List.length_take, List.length_replicate]
      omega
    · show 4 * ((max (d.capacity * 3 / 2) rq + 3) / 4) ≤ 2 ^ 62
      omega
    · show rq ≤ 4 * ((max (d.capacity * 3 / 2) rq + 3) / 4)
      omega
    · show (d.buffer.take d.size ++ List.replicate _ 0).take d.size
        = d.buffer.take d.size
      exact List.take_left' (by rw [List.length_take]; omega)

/-- The fresh-block constructor satisfies the invariant and provides the
requested capacity (for requests up to `2^62`). -/
theorem mkStringData_good (m : Nat) (hm : m ≤ 2 ^ 62) :
    GoodBlock (mkStringData m) ∧ m ≤ (mkStringData m).capacity := by
  by_cases h0 : m = 0
  · subst h0
    exact ⟨⟨by decide, by decide, by decide, by decide⟩, by decide⟩
  · have h1 : 1 ≤ m := by omega
    have hb1 : 1 ≤ max (0 * 3 % size_t_mod / 2) m := by
      simp only [size_t_mod]
      omega
    have hb2 : max (0 * 3 % size_t_mod / 2) m + 3 < size_t_mod := by
      simp only [size_t_mod]
      omega
    unfold mkStringData
    simp only [StringData.Reserve]
    rw [if_neg (by omega), RoundToMultiple_four _ hb1 hb2]
    have hmax : max (0 * 3 % size_t_mod / 2) m = m := by
      simp only [size_t_mod]
      omega
    rw [hmax]
    refine ⟨⟨?_, ?_, ?_, ?_⟩, ?_⟩
    · show 4 * ((m + 3) / 4) % 4 = 0
      omega
    · show (0 : Nat) ≤ 4 * ((m + 3) / 4)
      omega
    · show (List.take 0 ([] : List Nat)
          ++ List.replicate (4 * ((m + 3) / 4) - 0) 0).length
        = 4 * ((m + 3) / 4)
      rw [List.length_append, List.length_take, List.length_replicate]
      omega
    · show 4 * ((m + 3) / 4) ≤ 2 ^ 62
      omega
    · show m ≤ 4 * ((m + 3) / 4)
      omega

/-- `CopyData` appending at offset `size` preserves the invariant when the
result fits in the capacity. -/
theorem CopyData_at_size_good (d : StringData) (str : List Nat) (len : Nat)
    (hg : GoodBlock d) (hls : len ≤ str.length)
    (hfit : d.size + len ≤ d.capacity) :
    GoodBlock (d.CopyData str len d.size) ∧
    (d.CopyData str len d.size).size = d.size + len ∧
    (d.CopyData str len d.size).ref_count = d.ref_count := by
  obtain ⟨h4, hsc, hbl, hcb⟩ := hg
  refine ⟨⟨?_, ?_, ?_, ?_⟩, ?_, rfl⟩
  · show d.capacity % 4 = 0
    exact h4
  · show max (d.size + len) d.size ≤ d.capacity
    omega
  · show (d.buffer.take d.size ++ str.take len
        ++ d.buffer.drop (d.size + len)).length = d.capacity
    simp only [List.length_append, List.length_take, List.length_drop]
    omega
  · show d.capacity ≤ 2 ^ 62
    exact hcb
  · show max (d.size + len) d.size = d.size + len
    omega

/-- `Clone` produces an invariant-satisfying fresh block of the same logical
content size at count 1, with at least the requested capacity. -/
theorem Clone_good (d : StringData) (nc : Nat) (hg : GoodBlock d)
    (hnc : nc ≤ 2 ^ 60) :
    GoodBlock (d.Clone nc) ∧ nc ≤ (d.Clone nc).capacity ∧
    (d.Clone nc).size = d.size ∧ (d.Clone nc).ref_count = 1 := by
  obtain ⟨h4, hsc, hbl, hcb⟩ := hg
  have hm : max nc d.capacity ≤ 2 ^ 62 := by omega
  obtain ⟨hgm, hcm⟩ := mkStringData_good (max nc d.capacity) hm
  unfold StringData.Clone
  have h0 : (mkStringData (max nc d.capacity)).CopyData d.buffer d.size 0
      = (mkStringData (max nc d.capacity)).CopyData d.buffer d.size
          (mkStringData (max nc d.capacity)).size := by
    rw [mkStringData_size]
  rw [h0]
  have hfit : (mkStringData (max nc d.capacity)).size + d.size
      ≤ (mkStringData (max nc d.capacity)).capacity := by
    rw [mkStringData_size]
    omega
  have hls : d.size ≤ d.buffer.length := by omega
  obtain ⟨hg2, hsz2, hrc2⟩ := CopyData_at_size_good
    (mkStringData (max nc d.capacity)) d.buffer d.size hgm hls hfit
  refine ⟨hg2, ?_, ?_, ?_⟩
  · show nc ≤ (mkStringData (max nc d.capacity)).capacity
    omega
  · rw [hsz2, mkStringData_size]
    omega
  · rw [hrc2, mkStringData_ref_count]

/-- The value of the handle's block after an `Append` that stayed in place. -/
theorem Append_block_of_unique (H : Heap) (h : RCString) (str : List Nat)
    (len : Nat) (hv : h.data_ < H.blocks.length)
    (hu : (H.get h.data_).Unique = true) :
    (RCString.Append H h str len).1.get h.data_
      = (((H.get h.data_).Reserve
            (((H.get h.data_).size + len) % size_t_mod)).ResetSharedable).CopyData
          str len
          (((H.get h.data_).Reserve
            (((H.get h.data_).size + len) % size_t_mod)).ResetSharedable).size := by
  simp only [RCString.Append]
  rw [PrepareToModify_unique _ _ _ _ hv hu]
  simp only [Bool.false_eq_true, if_false]
  rw [Heap.get_set_self _ _ _ (by rw [Heap.length_set]; exact hv),
    Heap.get_set_self _ _ _ hv]

/-- The value of the fresh block after an `Append` that detached. -/
theorem Append_block_of_not_unique (H : Heap) (h : RCString) (str : List Nat)
    (len : Nat) (hv : h.data_ < H.blocks.length)
    (hu : (H.get h.data_).Unique = false) :
    (RCString.Append H h str len).1.get H.blocks.length
      = (((H.get h.data_).Clone
            (((H.get h.data_).size + len) % size_t_mod)).ResetSharedable).CopyData
          str len
          (((H.get h.data_).Clone
            (((H.get h.data_).size + len) % size_t_mod)).ResetSharedable).size := by
  simp only [RCString.Append]
  rw [PrepareToModify_not_unique _ _ _ _ hv hu]
  simp only [Bool.false_eq_true, if_false]
  have hKlen : (((H.set h.data_ ((H.get h.data_).Release).2).alloc
      ((H.get h.data_).Clone
        (((H.get h.data_).size + len) % size_t_mod))).1).blocks.length
      = H.blocks.length + 1 := by
    rw [Heap.length_alloc, Heap.length_set]
  have hLlt : H.blocks.length < H.blocks.length + 1 := Nat.lt_succ_self _
  rw [Heap.get_set_self _ _ _ (by rw [Heap.length_set, hKlen]; exact hLlt),
    Heap.get_set_self _ _ _ (by rw [hKlen]; exact hLlt)]

/-- One `Append` preserves the block invariant (within the byte budget) and
grows the logical size by exactly the appended length. -/
theorem Append_step (H : Heap) (h : RCString) (str : List Nat) (len : Nat)
    (hv : h.data_ < H.blocks.length)
    (hg : GoodBlock (H.get h.data_))
    (hls : len ≤ str.length)
    (hbound : (H.get h.data_).size + len ≤ 2 ^ 60) :
    (RCString.Append H h str len).2.data_
      < (RCString.Append H h str len).1.blocks.length ∧
    GoodBlock ((RCString.Append H h str len).1.get
      (RCString.Append H h str len).2.data_) ∧
    ((RCString.Append H h str len).1.get
      (RCString.Append H h str len).2.data_).size
      = (H.get h.data_).size + len := by
  have hns : ((H.get h.data_).size + len) % size_t_mod
      = (H.get h.data_).size + len := by
    apply Nat.mod_eq_of_lt
    simp only [size_t_mod]
    omega
  cases hu : (H.get h.data_).Unique with
  | true =>
    obtain ⟨ha2, _, halen⟩ := Append_of_unique H h str len hv hu
    have hblock := Append_block_of_unique H h str len hv hu
    rw [hns] at hblock
    obtain ⟨hgR, hcR, hszR, _, _⟩ :=
      Reserve_good (H.get h.data_) ((H.get h.data_).size + len)
        hg (by omega)
    have hgRR : GoodBlock
        (((H.get h.data_).Reserve
          ((H.get h.data_).size + len)).ResetSharedable) := hgR
    have hfit : (((H.get h.data_).Reserve
          ((H.get h.data_).size + len)).ResetSharedable).size + len
        ≤ (((H.get h.data_).Reserve
          ((H.get h.data_).size + len)).ResetSharedable).capacity := by
      show ((H.get h.data_).Reserve ((H.get h.data_).size + len)).size + len
        ≤ ((H.get h.data_).Reserve ((H.get h.data_).size + len)).capacity
      omega
    obtain ⟨hgB, hszB, _⟩ := CopyData_at_size_good
      (((H.get h.data_).Reserve
        ((H.get h.data_).size + len)).ResetSharedable) str len hgRR hls hfit
    rw [ha2]
    refine ⟨by rw [halen]; exact hv, ?_, ?_⟩
    · rw [hblock]
      exact hgB
    · rw [hblock, hszB]
      show ((H.get h.data_).Reserve ((H.get h.data_).size + len)).size + len
        = (H.get h.data_).size + len
      omega
  | false =>
    obtain ⟨ha2, _, _, halen⟩ := Append_of_not_unique H h str len hv hu
    have hblock := Append_block_of_not_unique H h str len hv hu
    rw [hns] at hblock
    obtain ⟨hgC, hcC, hszC, _⟩ :=
      Clone_good (H.get h.data_) ((H.get h.data_).size + len) hg (by omega)
    have hgCC : GoodBlock
        (((H.get h.data_).Clone
          ((H.get h.data_).size + len)).ResetSharedable) := hgC
    have hfit : (((H.get h.data_).Clone
          ((H.get h.data_).size + len)).ResetSharedable).size + len
        ≤ (((H.get h.data_).Clone
          ((H.get h.data_).size + len)).ResetSharedable).capacity := by
      show ((H.get h.data_).Clone ((H.get h.data_).size + len)).size + len
        ≤ ((H.get h.data_).Clone ((H.get h.data_).size + len)).capacity
      omega
    obtain ⟨hgB, hszB, _⟩ := CopyData_at_size_good
      (((H.get h.data_).Clone
        ((H.get h.data_).size + len)).ResetSharedable) str len hgCC hls hfit
    rw [ha2]
    refine ⟨?_, ?_, ?_⟩
    · show H.blocks.length < (RCString.Append H h str len).1.blocks.length
      rw [halen]
      omega
    · show GoodBlock ((RCString.Append H h str len).1.get H.blocks.length)
      rw [hblock]
      exact hgB
    · show ((RCString.Append H h str len).1.get H.blocks.length).size
        = (H.get h.data_).size + len
      rw [hblock, hszB]
      show ((H.get h.data_).Clone ((H.get h.data_).size + len)).size + len
        = (H.get h.data_).size + len
      omega

/-- A whole sequence of `Append` calls preserves the invariant and its final
size is the initial size plus all appended bytes. -/
theorem appendAll_good (ops : List (List Nat × Nat)) :
    ∀ (H : Heap) (h : RCString),
      h.data_ < H.blocks.length →
      GoodBlock (H.get h.data_) →
      (∀ op ∈ ops, op.2 ≤ op.1.length) →
      (H.get h.data_).size + totalLen ops ≤ 2 ^ 60 →
      (appendAll H h ops).2.data_ < (appendAll H h ops).1.blocks.length ∧
      GoodBlock ((appendAll H h ops).1.get (appendAll H h ops).2.data_) ∧
      ((appendAll H h ops).1.get (appendAll H h ops).2.data_).size
        = (H.get h.data_).size + totalLen ops := by
  induction ops with
  | nil =>
    intro H h hv hg _ _
    refine ⟨hv, hg, ?_⟩
    show (H.get h.data_).size = (H.get h.data_).size + totalLen []
    simp [totalLen]
  | cons op rest ih =>
    intro H h hv hg hops hb
    have hop : op.2 ≤ op.1.length := hops op (List.mem_cons_self op rest)
    have hb1 : (H.get h.data_).size + op.2 ≤ 2 ^ 60 := by
      rw [totalLen_cons] at hb
      omega
    obtain ⟨hv', hg', hsz'⟩ := Append_step H h op.1 op.2 hv hg hop hb1
    have hops' : ∀ o ∈ rest, o.2 ≤ o.1.length :=
      fun o ho => hops o (List.mem_cons_of_mem _ ho)
    have hb' : ((RCString.Append H h op.1 op.2).1.get
        (RCString.Append H h op.1 op.2).2.data_).size + totalLen rest
        ≤ 2 ^ 60 := by
      rw [hsz', totalLen_cons] at *
      omega
    obtain ⟨r1, r2, r3⟩ := ih (RCString.Append H h op.1 op.2).1
      (RCString.Append H h op.1 op.2).2 hv' hg' hops' hb'
    refine ⟨r1, r2, ?_⟩
    show ((appendAll (RCString.Append H h op.1 op.2).1
        (RCString.Append H h op.1 op.2).2 rest).1.get
        (appendAll (RCString.Append H h op.1 op.2).1
          (RCString.Append H h op.1 op.2).2 rest).2.data_).size
      = (H.get h.data_).size + totalLen (op :: rest)
    rw [r3, hsz', totalLen_cons]
    omega

/-- C8: starting from either constructor and applying any sequence of
`Append` calls (each passing at least `length` readable bytes, total appended
bytes within the `2^60` allocation budget), after every call the block's
capacity is a multiple of 4 and `size ≤ capacity` — stated for all `ops`,
hence for every prefix of a sequence, i.e. after each call. -/
theorem C8_growth_invariant :
    (∀ (H : Heap) (ops : List (List Nat × Nat)),
      (∀ op ∈ ops, op.2 ≤ op.1.length) →
      totalLen ops ≤ 2 ^ 60 →
      ((appendAll (mkRCString H).1 (mkRCString H).2 ops).1.get
          (appendAll (mkRCString H).1 (mkRCString H).2 ops).2.data_).capacity % 4
        = 0 ∧
      ((appendAll (mkRCString H).1 (mkRCString H).2 ops).1.get
          (appendAll (mkRCString H).1 (mkRCString H).2 ops).2.data_).size
        ≤ ((appendAll (mkRCString H).1 (mkRCString H).2 ops).1.get
            (appendAll (mkRCString H).1 (mkRCString H).2 ops).2.data_).capacity) ∧
    (∀ (H : Heap) (str : List Nat) (ops : List (List Nat × Nat)),
      (∀ op ∈ ops, op.2 ≤ op.1.length) →
      str.length + totalLen ops ≤ 2 ^ 60 →
      ((appendAll (mkRCStringOfBytes H str str.length).1
          (mkRCStringOfBytes H str str.length).2 ops).1.get
          (appendAll (mkRCStringOfBytes H str str.length).1
            (mkRCStringOfBytes H str str.length).2 ops).2.data_).capacity % 4
        = 0 ∧
      ((appendAll (mkRCStringOfBytes H str str.length).1
          (mkRCStringOfBytes H str str.length).2 ops).1.get
          (appendAll (mkRCStringOfBytes H str str.length).1
            (mkRCStringOfBytes H str str.length).2 ops).2.data_).size
        ≤ ((appendAll (mkRCStringOfBytes H str str.length).1
            (mkRCStringOfBytes H str str.length).2 ops).1.get
            (appendAll (mkRCStringOfBytes H str str.length).1
              (mkRCStringOfBytes H str str.length).2 ops).2.data_).capacity) := by
  constructor
  · intro H ops hops hb
    have hget : (mkRCString H).1.get (mkRCString H).2.data_
        = mkStringData kBaseSize := by
      unfold mkRCString
      exact Heap.get_alloc_new _ _
    have hv : (mkRCString H).2.data_ < (mkRCString H).1.blocks.length := by
      show H.blocks.length < (H.alloc (mkStringData kBaseSize)).1.blocks.length
      rw [Heap.length_alloc]
      omega
    have hgood : GoodBlock ((mkRCString H).1.get (mkRCString H).2.data_) := by
      rw [hget]
      exact (mkStringData_good kBaseSize (by norm_num [kBaseSize])).1
    have hbud : ((mkRCString H).1.get (mkRCString H).2.data_).size
        + totalLen ops ≤ 2 ^ 60 := by
      rw [hget, mkStringData_size]
      omega
    obtain ⟨_, hg, _⟩ := appendAll_good ops _ _ hv hgood hops hbud
    exact ⟨hg.1, hg.2.1⟩
  · intro H str ops hops hb
    have hget : (mkRCStringOfBytes H str str.length).1.get
        (mkRCStringOfBytes H str str.length).2.data_
        = (mkStringData str.length).CopyData str str.length 0 := by
      unfold mkRCStringOfBytes
      exact Heap.get_alloc_new _ _
    have hv : (mkRCStringOfBytes H str str.length).2.data_
        < (mkRCStringOfBytes H str str.length).1.blocks.length := by
      show H.blocks.length < (H.alloc
        ((mkStringData str.length).CopyData str str.length 0)).1.blocks.length
      rw [Heap.length_alloc]
      omega
    obtain ⟨hgm, hcm⟩ := mkStringData_good str.length (by omega)
    have h0 : (mkStringData str.length).CopyData str str.length 0
        = (mkStringData str.length).CopyData str str.length
            (mkStringData str.length).size := by
      rw [mkStringData_size]
    have hfit : (mkStringData str.length).size + str.length
        ≤ (mkStringData str.length).capacity := by
      rw [mkStringData_size]
      omega
    obtain ⟨hg0, hsz0, _⟩ := CopyData_at_size_good (mkStringData str.length)
      str str.length hgm (Nat.le_refl _) hfit
    have hgood : GoodBlock ((mkRCStringOfBytes H str str.length).1.get
        (mkRCStringOfBytes H str str.length).2.data_) := by
      rw [hget, h0]
      exact hg0
    have hbud : ((mkRCStringOfBytes H str str.length).1.get
        (mkRCStringOfBytes H str str.length).2.data_).size
        + totalLen ops ≤ 2 ^ 60 := by
      rw [hget, h0, hsz0, mkStringData_size]
      omega
    obtain ⟨_, hg, _⟩ := appendAll_good ops _ _ hv hgood hops hbud
    exact ⟨hg.1, hg.2.1⟩

/-- Witness for C8: default construction and construction from `[1, 2, 3]`,
each followed by appending `[7]` then `[8, 9]`. -/
theorem C8_growth_invariant_witness :
    (((appendAll (mkRCString ⟨[]⟩).1 (mkRCString ⟨[]⟩).2
        [([7], 1), ([8, 9], 2)]).1.get
        (appendAll (mkRCString ⟨[]⟩).1 (mkRCString ⟨[]⟩).2
          [([7], 1), ([8, 9], 2)]).2.data_).capacity % 4 = 0 ∧
     ((appendAll (mkRCString ⟨[]⟩).1 (mkRCString ⟨[]⟩).2
        [([7], 1), ([8, 9], 2)]).1.get
        (appendAll (mkRCString ⟨[]⟩).1 (mkRCString ⟨[]⟩).2
          [([7], 1), ([8, 9], 2)]).2.data_).size
       ≤ ((appendAll (mkRCString ⟨[]⟩).1 (mkRCString ⟨[]⟩).2
          [([7], 1), ([8, 9], 2)]).1.get
          (appendAll (mkRCString ⟨[]⟩).1 (mkRCString ⟨[]⟩).2
            [([7], 1), ([8, 9], 2)]).2.data_).capacity) ∧
    (((appendAll (mkRCStringOfBytes ⟨[]⟩ [1, 2, 3] [1, 2, 3].length).1
        (mkRCStringOfBytes ⟨[]⟩ [1, 2, 3] [1, 2, 3].length).2
        [([7], 1), ([8, 9], 2)]).1.get
        (appendAll (mkRCStringOfBytes ⟨[]⟩ [1, 2, 3] [1, 2, 3].length).1
          (mkRCStringOfBytes ⟨[]⟩ [1, 2, 3] [1, 2, 3].length).2
          [([7], 1), ([8, 9], 2)]).2.data_).capacity % 4 = 0 ∧
     ((appendAll (mkRCStringOfBytes ⟨[]⟩ [1, 2, 3] [1, 2, 3].length).1
        (mkRCStringOfBytes ⟨[]⟩ [1, 2, 3] [1, 2, 3].length).2
        [([7], 1), ([8, 9], 2)]).1.get
        (appendAll (mkRCStringOfBytes ⟨[]⟩ [1, 2, 3] [1, 2, 3].length).1
          (mkRCStringOfBytes ⟨[]⟩ [1, 2, 3] [1, 2, 3].length).2
          [([7], 1), ([8, 9], 2)]).2.data_).size
       ≤ ((appendAll (mkRCStringOfBytes ⟨[]⟩ [1, 2, 3] [1, 2, 3].length).1
          (mkRCStringOfBytes ⟨[]⟩ [1, 2, 3] [1, 2, 3].length).2
          [([7], 1), ([8, 9], 2)]).1.get
          (appendAll (mkRCStringOfBytes ⟨[]⟩ [1, 2, 3] [1, 2, 3].length).1
            (mkRCStringOfBytes ⟨[]⟩ [1, 2, 3] [1, 2, 3].length).2
            [([7], 1), ([8, 9], 2)]).2.data_).capacity) :=
  ⟨C8_growth_invariant.1 ⟨[]⟩ [([7], 1), ([8, 9], 2)] (by decide) (by decide),
   C8_growth_invariant.2 ⟨[]⟩ [1, 2, 3] [([7], 1), ([8, 9], 2)]
     (by decide) (by decide)⟩
